import Mathlib

/-!
Verification development for the LANChat agent pipeline.

The definitions below are a shallow embedding of the TypeScript source:

* `src/agent/utils.ts` : `sanitizeUsername`, `normalizeDecision`
* `src/agent/decision-engine.ts` : `DecisionEngine.shouldRespond`,
  `DecisionEngine.planResponse` (both the current single-round version and
  the earlier bounded 3-round loop version)
* `src/agent/context-manager.ts` : `AgentContextManager.prepareContext`
  (both the current read-only version and the earlier recording version)
* `src/agent/chat-agent.ts` : `ChatAgent.processMessage`,
  `ChatAgent.generateResponse`, `ChatAgent.isMessageAddressed`, and the
  `connect` message dispatch
* `src/game-agents/hostile-npc-agent.ts` : `HostileNPCAgent.updateTrustLevel`
* `src/game-agents/game-master-agent.ts` : the one-time scene-introduction
  trigger installed in `GameMasterAgent.connect`

Strings are modelled with Lean `String` but every operation used by the
source (lowercasing, `includes`, `trim`) is re-implemented structurally on
the underlying character list so that all definitions evaluate inside the
kernel.  External collaborators (the Honcho store, the LLM backend, the
socket) are modelled as explicit input data: each call an embedded function
makes to a collaborator consumes one value describing that call's outcome,
and every observable action is reported in an explicit event list.
-/

/-! ## JavaScript string primitives -/

/-- ASCII lowercase of one character, as JavaScript `toLowerCase` acts on
the ASCII range used by the source. -/
def jsLowerChar (c : Char) : Char :=
  if 'A' ≤ c ∧ c ≤ 'Z' then Char.ofNat (c.toNat + 32) else c

/-- JavaScript `String.prototype.toLowerCase` (ASCII fragment). -/
def jsLower (s : String) : String := String.mk (s.data.map jsLowerChar)

/-- Substring test on character lists: `pat` occurs somewhere in `l`. -/
def hasSub (l pat : List Char) : Bool :=
  pat.isPrefixOf l ||
    match l with
    | [] => false
    | _ :: t => hasSub t pat

/-- JavaScript `String.prototype.includes`. -/
def jsIncludes (s pat : String) : Bool := hasSub s.data pat.data

/-- Whitespace recognised by `trim` (the forms occurring in this code base). -/
def wsChar (c : Char) : Bool := c = ' ' || c = '\t' || c = '\n' || c = '\r'

/-- JavaScript `String.prototype.trim` on character lists. -/
def trimChars (l : List Char) : List Char :=
  ((l.dropWhile wsChar).reverse.dropWhile wsChar).reverse

/-- JavaScript `String.prototype.trim`. -/
def jsTrim (s : String) : String := String.mk (trimChars s.data)

/-! ## `sanitizeUsername` (src/agent/utils.ts)

```ts
export function sanitizeUsername(username: string): string {
  return username
    .replace(/[^a-zA-Z0-9_-]/g, "_")
    .replace(/_{2,}/g, "_")
    .replace(/^_|_$/g, "");
}
```
-/

/-- Characters the regex `[^a-zA-Z0-9_-]` leaves untouched. -/
def allowedChar (c : Char) : Bool :=
  (('a' ≤ c ∧ c ≤ 'z') : Bool) || (('A' ≤ c ∧ c ≤ 'Z') : Bool) ||
  (('0' ≤ c ∧ c ≤ '9') : Bool) || c = '_' || c = '-'

/-- Step 1: `replace(/[^a-zA-Z0-9_-]/g, "_")`. -/
def replaceDisallowed (l : List Char) : List Char :=
  l.map (fun c => if allowedChar c then c else '_')

/-- Step 2 worker: `prevUS` records whether the previously consumed
character was an underscore, so that only the first underscore of each
maximal run is emitted. -/
def collapseGo (prevUS : Bool) : List Char → List Char
  | [] => []
  | c :: rest =>
    if c = '_' then
      if prevUS then collapseGo true rest
      else '_' :: collapseGo true rest
    else c :: collapseGo false rest

/-- Step 2: `replace(/_{2,}/g, "_")`.  Every maximal run of underscores is
emitted as a single underscore (runs of length one are unchanged, runs of
length two or more collapse, which is exactly what the regex does). -/
def collapseUnderscores (l : List Char) : List Char := collapseGo false l

/-- Removal of a single leading underscore (the `^_` alternative of the
step-3 regex). -/
def stripLeadUnderscore (l : List Char) : List Char :=
  match l with
  | c :: rest => if c = '_' then rest else l
  | [] => []

/-- Step 3: `replace(/^_|_$/g, "")` removes one leading and one trailing
underscore. -/
def stripEdgeUnderscores (l : List Char) : List Char :=
  let l1 := stripLeadUnderscore l
  if l1.getLast? = some '_' then l1.dropLast else l1

/-- `sanitizeUsername` from src/agent/utils.ts. -/
def sanitizeUsername (username : String) : String :=
  String.mk (stripEdgeUnderscores (collapseUnderscores (replaceDisallowed username.data)))

/-- Checker: no two adjacent underscores occur in the list. -/
def noDoubleUnderscore : List Char → Bool
  | a :: b :: t => ((a ≠ '_') || (b ≠ '_')) && noDoubleUnderscore (b :: t)
  | _ => true

/-! ## `normalizeDecision` (src/agent/utils.ts) -/

/-- The four-valued decision label type `AgentDecisionType`. -/
inductive AgentDecisionType where
  | psychology
  | search
  | respond
  | unknown
deriving DecidableEq, Repr

/-- `normalizeDecision(decision?: string)`.  `none` models an absent (or
non-string, hence falsy-for-this-guard only when absent) argument; the
string case follows the source: trim, lowercase, exact matches first, then
substring heuristics, otherwise `unknown`. -/
def normalizeDecision (decision : Option String) : AgentDecisionType :=
  match decision with
  | none => .unknown
  | some d =>
    if d = "" then .unknown
    else
      let normalized := jsLower (jsTrim d)
      if normalized = "" then .unknown
      else if normalized = "psychology" then .psychology
      else if normalized = "search" then .search
      else if normalized = "respond" ∨ normalized = "respond directly" then .respond
      else if jsIncludes normalized "psycholog" ∨ jsIncludes normalized "analyz" then .psychology
      else if jsIncludes normalized "search" then .search
      else if jsIncludes normalized "respond" then .respond
      else .unknown

/-! ## `HostileNPCAgent.updateTrustLevel`
(src/game-agents/hostile-npc-agent.ts, lines 164-188)

Four guarded deltas applied in source order to `this.trustLevel`, each
clamped on its own side (`Math.min(100, ...)` for gains,
`Math.max(-100, ...)` for losses).
-/

def updateTrustLevel (trust : Int) (playerMessage npcResponse : String) : Int :=
  let lowerPlayer := jsLower playerMessage
  let lowerResponse := jsLower npcResponse
  let t1 :=
    if jsIncludes lowerPlayer "strong" || jsIncludes lowerPlayer "powerful" then
      min 100 (trust + 10)
    else trust
  let t2 :=
    if jsIncludes lowerPlayer "respect" && jsIncludes lowerResponse "good" then
      min 100 (t1 + 5)
    else t1
  let t3 :=
    if jsIncludes lowerPlayer "scared" || jsIncludes lowerPlayer "afraid" then
      max (-100) (t2 - 15)
    else t2
  let t4 :=
    if jsIncludes lowerPlayer "please" || jsIncludes lowerPlayer "beg" then
      max (-100) (t3 - 20)
    else t3
  t4

/-- Folding `updateTrustLevel` over a sequence of
(player message, NPC response) exchanges. -/
def trustAfter (start : Int) (exchanges : List (String × String)) : Int :=
  exchanges.foldl (fun t e => updateTrustLevel t e.1 e.2) start

/-! ## Observable events

Every embedded pipeline function reports what it did as a list of events:
backend decision calls, tool executions, the final-generation continuation,
the context-preparation call, outbound chat emissions and durable utterance
records. -/

inductive Ev where
  | llmCall
  | psychCall
  | searchCall
  | generateCall
  | prepCtx
  | emitChat (content : String)
  | recordUtter (content : String)

/-- Number of outbound chat emissions in an event list. -/
def countEmit (l : List Ev) : Nat :=
  (l.filter fun e => match e with | .emitChat _ => true | _ => false).length

/-- Number of durable utterance records in an event list. -/
def countRecord (l : List Ev) : Nat :=
  (l.filter fun e => match e with | .recordUtter _ => true | _ => false).length

/-- Number of `prepareContext` invocations in an event list. -/
def countPrep (l : List Ev) : Nat :=
  (l.filter fun e => match e with | .prepCtx => true | _ => false).length

/-- Number of decision-round backend calls in an event list. -/
def countLlm (l : List Ev) : Nat :=
  (l.filter fun e => match e with | .llmCall => true | _ => false).length

/-- Number of psychology-tool executions in an event list. -/
def countPsych (l : List Ev) : Nat :=
  (l.filter fun e => match e with | .psychCall => true | _ => false).length

/-- Number of search-tool executions in an event list. -/
def countSearchEv (l : List Ev) : Nat :=
  (l.filter fun e => match e with | .searchCall => true | _ => false).length

/-- Number of `generateFn` continuation invocations in an event list. -/
def countGenerate (l : List Ev) : Nat :=
  (l.filter fun e => match e with | .generateCall => true | _ => false).length

/-! ## Decision engine, bounded tool loop
(src/agent/decision-engine.ts, loop version, lines 327-407 of the packed
source: `while (iterations < 3) { ... }` followed by one
`context.generateResponse(tracker)` call)

The backend is an oracle: `decide idx` describes the result of `safeParse`
on the `idx`-th `llm.generate` output, projected to the `decision` field.
`safeParse` does an unchecked `JSON.parse(...) as T`, so a parseable object
may carry a `decision` field of any JS type; `normalizeDecision` only
guards against falsy values before calling `.trim()`, and the loop version
has no `try`/`catch`, so a truthy non-string field (for example
`{"decision": 5}`) raises an uncaught `TypeError` inside
`normalizeDecision` and the `generateResponse` continuation is never
invoked.  The loop therefore returns `Except`: `.error evs` is that
uncaught rejection after the events `evs`, `.ok (tr, evs)` the normal fall
through to the single `generateResponse` call site.  `psych` is what
`tools.analyzePsychology()` resolves to (`none` = JS `null`/`undefined`),
and `searchR` what `tools.search()` resolves to. -/

/-- The JS value found in the `decision` field of a parsed tool-choice
object: falsy (`undefined`, `null`, `0`, `false`, `""`-like — rejected by
the `!decision` guard of `normalizeDecision`), a string, or a truthy
non-string on which `decision.trim()` throws a `TypeError`. -/
inductive JsDecisionField where
  | nullish
  | str (s : String)
  | truthyNonString
deriving DecidableEq

/-- Possible shapes of the `session.search` result as consumed by the loop:
nullish, a single value, or an array. -/
inductive JsSearch where
  | nullish
  | single (s : String)
  | arr (l : List String)

/-- The `messages` array the loop builds from a search result. -/
def searchMessages : JsSearch → List String
  | .nullish => []
  | .single s => [s]
  | .arr l => l

/-- The per-message tracker of the loop version: each field is `none` while
the JS property is still `undefined`, `some none` once it was set to `null`,
and `some (some v)` once it holds a usable result. -/
structure Tracker3 where
  psychology : Option (Option String) := none
  search : Option (Option (List String)) := none

/-- JS truthiness of a string-or-nullish tool result. -/
def truthyStr : Option String → Bool
  | none => false
  | some s => s ≠ ""

/-- One-to-three iterations of the `while (iterations < 3)` loop.  `fuel` is
the number of remaining iterations, `idx` the index of the next backend
call.  `.ok` terminal returns model the `break` statements of the source;
`.error` models the uncaught `TypeError` that `normalizeDecision` raises on
a truthy non-string `decision` field. -/
def planResponseLoopGo (decide : Nat → Option JsDecisionField) (psych : Option String)
    (searchR : JsSearch) :
    Nat → Nat → Tracker3 → List Ev → Except (List Ev) (Tracker3 × List Ev)
  | 0, _, tr, evs => .ok (tr, evs)
  | fuel + 1, idx, tr, evs =>
    let evs1 := evs ++ [Ev.llmCall]
    match decide idx with
    | none => .ok (tr, evs1)
    | some f =>
      match f with
      | .truthyNonString => .error evs1
      | .nullish => .ok (tr, evs1)
      | .str s =>
        match normalizeDecision (some s) with
        | .unknown => .ok (tr, evs1)
        | .psychology =>
          if tr.psychology = none then
            let evs2 := evs1 ++ [Ev.psychCall]
            let tr2 : Tracker3 := { tr with psychology := some psych }
            if truthyStr psych then
              planResponseLoopGo decide psych searchR fuel (idx + 1) tr2 evs2
            else .ok (tr2, evs2)
          else .ok (tr, evs1)
        | .search =>
          if tr.search = none then
            let evs2 := evs1 ++ [Ev.searchCall]
            let msgs := searchMessages searchR
            let tr2 : Tracker3 :=
              { tr with search := some (if msgs ≠ [] then some msgs else none) }
            if msgs ≠ [] then
              planResponseLoopGo decide psych searchR fuel (idx + 1) tr2 evs2
            else .ok (tr2, evs2)
          else .ok (tr, evs1)
        | .respond => .ok (tr, evs1)

/-- `DecisionEngine.planResponse`, loop version: run the bounded loop from
tracker `tr0`; on normal fall-through invoke the `generateResponse`
continuation exactly at the single call site after the loop, and on an
uncaught exception propagate the rejection without invoking it. -/
def planResponseLoop (decide : Nat → Option JsDecisionField) (psych : Option String)
    (searchR : JsSearch) (tr0 : Tracker3) : Except (List Ev) (Tracker3 × List Ev) :=
  match planResponseLoopGo decide psych searchR 3 0 tr0 [] with
  | .error evs => .error evs
  | .ok (tr, evs) => .ok (tr, evs ++ [Ev.generateCall])

/-- The events a loop-version run performed, whether or not it crashed. -/
def planEvents : Except (List Ev) (Tracker3 × List Ev) → List Ev
  | .error evs => evs
  | .ok r => r.2

/-- Whether a loop-version run returned normally. -/
def planOk : Except (List Ev) (Tracker3 × List Ev) → Bool
  | .error _ => false
  | .ok _ => true

/-! ## Decision engine, current single-round version
(src/agent/decision-engine.ts, lines 169-248 of the packed source)

One `llm.chat` call inside `try`, at most one tool execution, then an
unconditional `context.generateResponse(tracker)` after the `try`/`catch`. -/

/-- Outcome of the single `llm.chat` tool-decision call: a rejected promise,
or a resolved one whose content `safeParse` turned into `none` (no JSON) or
a parsed object whose `decision` field is `some s` exactly when
`typeof parsed.decision === "string"` holds. -/
inductive PlanLLM where
  | threw
  | ok (decisionField : Option String)

/-- Outcome of a toolbox call made by the current `planResponse`. -/
inductive ToolOutcome where
  | threw
  | ret (v : Option String)

/-- The per-message tracker of the current version: a field is set only when
the tool returned a non-nullish result. -/
structure Tracker2 where
  psychology : Option String := none
  search : Option String := none

/-- Label defaulting of the current `planResponse`: the parsed `decision`
field is trimmed when it is a string, and a blank or missing field becomes
the label `"respond"`. -/
def decisionLabelOf (parsedDecision : Option String) : String :=
  let rawDecision := match parsedDecision with
    | some s => jsTrim s
    | none => ""
  if rawDecision ≠ "" then rawDecision else "respond"

/-- `DecisionEngine.planResponse`, current version. -/
def planResponseHead (env : PlanLLM) (psychT searchT : ToolOutcome) :
    Tracker2 × List Ev :=
  let r : Tracker2 × List Ev :=
    match env with
    | .threw => ({}, [Ev.llmCall])
    | .ok parsedDecision =>
      match normalizeDecision (some (decisionLabelOf parsedDecision)) with
      | .psychology =>
        match psychT with
        | .threw => ({}, [Ev.llmCall, Ev.psychCall])
        | .ret v => ({ psychology := v }, [Ev.llmCall, Ev.psychCall])
      | .search =>
        match searchT with
        | .threw => ({}, [Ev.llmCall, Ev.searchCall])
        | .ret v => ({ search := v }, [Ev.llmCall, Ev.searchCall])
      | _ => ({}, [Ev.llmCall])
  (r.1, r.2 ++ [Ev.generateCall])

/-! ## Decision engine, should-respond gate
(src/agent/decision-engine.ts, current version, lines 92-167 of the packed
source)

The whole backend interaction sits in a `try`; on a rejected call, a
`JSON.parse` failure, or a shape-check failure the code falls through to
the name-mention heuristic. -/

/-- The gate's decision object. -/
structure ResponseDecision where
  should_respond : Bool
  reason : String
  confidence : ℚ

/-- Parsed gate output after the `typeof` shape checks: a field is `some`
exactly when it is present with the right JS type. -/
structure RespondParsed where
  sr : Option Bool
  reason : Option String
  confidence : Option ℚ

/-- Backend outcome for the gate: a rejected `llm.chat` call, or resolved
content on which `JSON.parse` failed (`output none`), or a parsed object. -/
inductive RespondLLM where
  | threw
  | output (parsed : Option RespondParsed)

/-- The heuristic the gate falls back to (lines 150-166): a lowercase
name-mention check, then a default refusal. -/
def heuristicFallback (agentName content : String) : ResponseDecision :=
  let c := jsLower content
  let n := jsLower agentName
  if jsIncludes c n || jsIncludes c ("@" ++ n) then
    ⟨true, "Directly mentioned by name (fallback)", 9 / 10⟩
  else
    ⟨false, "No clear reason to respond (fallback)", 1 / 2⟩

/-- `DecisionEngine.shouldRespond`, current version.  The prompt built from
the transcript, summary and message only feeds the opaque backend, whose
behaviour is the quantified `llmOutcome`; the embedded control flow depends
on the agent name and the message content exactly as the source does. -/
def shouldRespond (agentName content : String) (llmOutcome : RespondLLM) :
    ResponseDecision :=
  match llmOutcome with
  | .output (some p) =>
    match p.sr, p.reason, p.confidence with
    | some b, some r, some c => ⟨b, r, max 0 (min 1 c)⟩
    | _, _, _ => heuristicFallback agentName content
  | _ => heuristicFallback agentName content

/-! ## Context manager (src/agent/context-manager.ts)

Two variants exist in the source.  The current one (the variant whose
`ContextResult` carries the `summary` field consumed by the current
`ChatAgent`) only reads from the store and performs no durable write.  The
earlier variant (lines 70-93 of the packed source) additionally records the
incoming utterance with `session.addMessages([senderPeer.message(...)])`
before returning.  Durable writes are reported in the returned list. -/

/-- One entry of the store-rendered `context.toOpenAI(...)` array. -/
structure ContextEntry where
  role : String
  name : Option String
  content : String

/-- The `session.getContext` response as consumed by the current variant. -/
structure HonchoContext where
  entries : List ContextEntry
  summary : Option String
  peerRepresentation : Option String
  peerCard : Option (List String)

/-- Outcomes of the store calls a `prepareContext` invocation makes.
`context = none` models a rejected `session.getContext`; `openAILines` is
the line rendering the earlier variant joins with newlines. -/
structure StoreEnv where
  sessionOk : Bool
  peerOk : Bool
  context : Option HonchoContext
  openAILines : List String
  addOk : Bool

/-- A durable write into the conversation log. -/
structure Utterance where
  speakerId : String
  content : String

/-- The flattened speaker-labelled transcript the current variant builds:
system entries are dropped, assistant entries are labelled with the agent
name, other entries with `entry.name ?? entry.role`. -/
def renderTranscript (agentName : String) (entries : List ContextEntry) : String :=
  String.intercalate "\n"
    ((entries.filter fun e => e.role ≠ "system").map fun e =>
      (if e.role = "assistant" then agentName else e.name.getD e.role) ++ ": " ++ e.content)

/-- `AgentContextManager.prepareContext`, current variant: resolve session
and peer handles, fetch the context digest, assemble the renderable digest,
and return it; no `addMessages` call occurs, so the write list is empty on
every path.  A failed store call fails the whole call. -/
def prepareContextHead (agentName : String) (env : StoreEnv) : Except Unit String × List Utterance :=
  if env.sessionOk = false ∨ env.peerOk = false then (.error (), [])
  else
    match env.context with
    | none => (.error (), [])
    | some ctx =>
      let transcript := renderTranscript agentName ctx.entries
      let summarySection : List String :=
        match ctx.summary with
        | some s => if jsTrim s ≠ "" then ["Conversation Summary:\n" ++ jsTrim s] else []
        | none => []
      let perspectiveSection : List String :=
        match ctx.peerRepresentation with
        | some s =>
          if jsTrim s ≠ "" then
            ["Peer Representation (" ++ agentName ++ "'s perspective):\n" ++ jsTrim s]
          else []
        | none => []
      let cardSection : List String :=
        match ctx.peerCard with
        | some l => if l ≠ [] then ["Peer Card Details:\n" ++ String.intercalate "\n" l] else []
        | none => []
      let sections := summarySection ++ perspectiveSection ++ cardSection ++
        (if transcript ≠ "" then ["Recent Transcript:\n" ++ transcript] else [])
      let joined := String.intercalate "\n\n" sections
      let recentContext := if joined = "" then "No prior context available." else joined
      (.ok recentContext, [])

/-- `AgentContextManager.prepareContext`, earlier recording variant
(lines 70-93): after fetching the context it records the incoming message
as the sanitized sender's utterance and only then returns; if the record
call rejects, the whole call rejects and nothing was written. -/
def prepareContextRecording (env : StoreEnv) (senderUsername content : String) :
    Except Unit String × List Utterance :=
  if env.sessionOk = false then (.error (), [])
  else if env.peerOk = false then (.error (), [])
  else
    match env.context with
    | none => (.error (), [])
    | some _ =>
      let recentContext := String.intercalate "\n" env.openAILines
      if env.addOk = false then (.error (), [])
      else (.ok recentContext, [⟨sanitizeUsername senderUsername, content⟩])

/-- Does an `Except` hold a success value. -/
def exceptOk : Except Unit String → Bool
  | .ok _ => true
  | .error _ => false

/-! ## Chat agent runtime (src/agent/chat-agent.ts) -/

/-- An inbound socket message: `type`, `username`, `content`, the value
interpolated third into the dedup key, and `metadata.userType`. -/
structure Msg where
  type : String
  username : String
  content : String
  timestamp : String
  userType : Option String

/-- The mutable per-agent state touched by `processMessage`. -/
structure AgentState where
  agentName : String
  agentPeerId : String
  sessionId : Option String
  processedMessages : List String
  lastResponseTimestamp : Option Int

/-- `ChatAgent.isMessageAddressed` (lines 289-296). -/
def isMessageAddressed (st : AgentState) (content : String) : Bool :=
  let normalized := jsLower content
  jsIncludes normalized (jsLower st.agentName) ||
  jsIncludes normalized (jsLower st.agentPeerId) ||
  jsIncludes normalized ("@" ++ jsLower st.agentPeerId)

/-- JS truthiness of the `sessionId` field. -/
def sessionTruthy : Option String → Bool
  | none => false
  | some s => s ≠ ""

/-- The guard `this.lastResponseTimestamp && now - this.lastResponseTimestamp
< this.agentCooldownMs` with `agentCooldownMs = 20000`; the conjunct
`t ≠ 0` is the JS truthiness of the stored number. -/
def cooldownActive (lastResponseTimestamp : Option Int) (now : Int) : Bool :=
  match lastResponseTimestamp with
  | none => false
  | some t => t ≠ 0 && now - t < 20000

/-- Outcome of the final-generation `llm.chat` call: a rejected promise or
resolved content (`none` models an absent `response.content`). -/
inductive GenLLM where
  | threw
  | content (c : Option String)

/-- `ChatAgent.generateResponse` (lines 234-283): trim the generated text;
on blank text return without emitting or recording; otherwise emit on the
socket, then durably record the agent utterance, then set
`lastResponseTimestamp`.  A rejected record call is caught after the
emission, so the timestamp is not set in that case. -/
def generateResponse (st : AgentState) (gen : GenLLM) (recordOk : Bool) (now : Int) :
    AgentState × List Ev :=
  match gen with
  | .threw => (st, [])
  | .content c =>
    match c with
    | none => (st, [])
    | some raw =>
      let responseContent := jsTrim raw
      if responseContent = "" then (st, [])
      else if sessionTruthy st.sessionId then
        if recordOk then
          ({ st with lastResponseTimestamp := some now },
            [Ev.emitChat responseContent, Ev.recordUtter responseContent])
        else (st, [Ev.emitChat responseContent])
      else
        ({ st with lastResponseTimestamp := some now }, [Ev.emitChat responseContent])

/-- The collaborator outcomes one `processMessage` run can consume. -/
structure PipelineEnv where
  now : Int
  prepareOk : Bool
  respondLLM : RespondLLM
  planLLM : PlanLLM
  psychTool : ToolOutcome
  searchTool : ToolOutcome
  genLLM : GenLLM
  recordOk : Bool

/-- The dedup key `${message.username}-${message.content}-${message.timestamp}`. -/
def messageKey (msg : Msg) : String :=
  msg.username ++ "-" ++ msg.content ++ "-" ++ msg.timestamp

/-- `ChatAgent.processMessage` (lines 147-232): session guard, dedup check
and insertion, agent-to-agent address and cooldown guards, then the
`try` block: context preparation, the should-respond gate, the tool loop
and final generation.  Any context-preparation failure is caught and ends
the run. -/
def processMessage (st : AgentState) (env : PipelineEnv) (msg : Msg) :
    AgentState × List Ev :=
  if sessionTruthy st.sessionId = false then (st, [])
  else if st.processedMessages.contains (messageKey msg) then (st, [])
  else
    let st1 := { st with processedMessages := messageKey msg :: st.processedMessages }
    let isAgentMessage := msg.userType = some "agent"
    if isAgentMessage ∧ isMessageAddressed st1 msg.content = false then (st1, [])
    else if isAgentMessage ∧ cooldownActive st1.lastResponseTimestamp env.now then (st1, [])
    else if env.prepareOk = false then (st1, [Ev.prepCtx])
    else
      let decision := shouldRespond st1.agentName msg.content env.respondLLM
      if decision.should_respond = false then (st1, [Ev.prepCtx])
      else
        let plan := planResponseHead env.planLLM env.psychTool env.searchTool
        let gen := generateResponse st1 env.genLLM env.recordOk env.now
        (gen.1, Ev.prepCtx :: (plan.2 ++ gen.2))

/-- The `connect` message handler (lines 111-115): the decision pipeline is
invoked only for `chat` messages from someone other than the agent. -/
def dispatchChat (st : AgentState) (env : PipelineEnv) (msg : Msg) :
    AgentState × List Ev :=
  if msg.type = "chat" ∧ msg.username ≠ st.agentName then processMessage st env msg
  else (st, [])

/-- The extra handler `GameMasterAgent.connect` installs (lines 99-110 of
the game-master source): a scene introduction is emitted once, for the
first `join` message whose sender is human. -/
def gmIntroStep (introSent : Bool) (msg : Msg) : Bool × Bool :=
  if introSent = false ∧ msg.type = "join" ∧ msg.userType = some "human" then
    (true, true)
  else (introSent, false)

/-- Folding the introduction handler over a message sequence; the second
component counts emitted introductions. -/
def gmIntroRun (introSent : Bool) : List Msg → Bool × Nat
  | [] => (introSent, 0)
  | m :: rest =>
    let s := gmIntroStep introSent m
    let r := gmIntroRun s.1 rest
    (r.1, (if s.2 then 1 else 0) + r.2)

/-! ## Theorems -/

/-- Single-exchange preservation of the trust bounds. -/
theorem updateTrustLevel_bounds (t : Int) (pm nr : String)
    (h1 : -100 ≤ t) (h2 : t ≤ 100) :
    -100 ≤ updateTrustLevel t pm nr ∧ updateTrustLevel t pm nr ≤ 100 := by
  simp only [updateTrustLevel]
  split_ifs <;> omega

/-- C8: for every starting trust score in [-100, 100] and every finite
sequence of (player message, NPC response) text pairs, repeatedly applying
`updateTrustLevel` never leaves the trust score outside [-100, 100]. -/
theorem trust_clamping (start : Int) (h1 : -100 ≤ start) (h2 : start ≤ 100)
    (exchanges : List (String × String)) :
    -100 ≤ trustAfter start exchanges ∧ trustAfter start exchanges ≤ 100 := by
  induction exchanges generalizing start with
  | nil => exact ⟨h1, h2⟩
  | cons e rest ih =>
    have h := updateTrustLevel_bounds start e.1 e.2 h1 h2
    simpa [trustAfter] using ih _ h.1 h.2

/-- Witness for C8 at the hostile archetype's seed score and a concrete
two-exchange conversation. -/
theorem trust_clamping_witness :
    (-100 ≤ (-30 : Int) ∧ (-30 : Int) ≤ 100) ∧
    (-100 ≤ trustAfter (-30) [("please, I beg you, I am scared", "bad"), ("you are strong", "good")] ∧
      trustAfter (-30) [("please, I beg you, I am scared", "bad"), ("you are strong", "good")] ≤ 100) := by
  refine ⟨⟨by decide, by decide⟩, ?_⟩
  exact trust_clamping (-30) (by decide) (by decide)
    [("please, I beg you, I am scared", "bad"), ("you are strong", "good")]

/-! ### Shape lemmas for `sanitizeUsername` -/

/-- Characters emitted by the collapse step come from its input. -/
theorem mem_collapseGo (p : Bool) (l : List Char) (c : Char)
    (h : c ∈ collapseGo p l) : c ∈ l := by
  induction l generalizing p with
  | nil => simp [collapseGo] at h
  | cons a rest ih =>
    simp only [collapseGo] at h
    split_ifs at h with h1 h2
    · exact List.mem_cons_of_mem a (ih true h)
    · rcases List.mem_cons.mp h with rfl | h3
      · exact h1 ▸ List.mem_cons_self a rest
      · exact List.mem_cons_of_mem a (ih true h3)
    · rcases List.mem_cons.mp h with rfl | h3
      · exact List.mem_cons_self _ _
      · exact List.mem_cons_of_mem _ (ih false h3)

/-- After an underscore was just consumed, the collapse step never emits an
underscore first. -/
theorem collapseGo_true_head (l : List Char) :
    (collapseGo true l).head? ≠ some '_' := by
  induction l with
  | nil => simp [collapseGo]
  | cons a rest ih =>
    by_cases ha : a = '_'
    · simpa [collapseGo, ha] using ih
    · simp [collapseGo, ha]

/-- The collapse step never emits two adjacent underscores. -/
theorem noDouble_collapseGo (p : Bool) (l : List Char) :
    noDoubleUnderscore (collapseGo p l) = true := by
  induction l generalizing p with
  | nil => simp [collapseGo, noDoubleUnderscore]
  | cons a rest ih =>
    by_cases ha : a = '_'
    · cases p with
      | true => simpa [collapseGo, ha] using ih true
      | false =>
        have hh := collapseGo_true_head rest
        have ht := ih true
        simp only [collapseGo, ha, if_pos, if_neg, Bool.false_eq_true, not_false_iff]
        cases hX : collapseGo true rest with
        | nil => simp [noDoubleUnderscore]
        | cons b t =>
          rw [hX] at hh ht
          simp only [List.head?] at hh
          simp [noDoubleUnderscore, ht]
          intro hb
          exact absurd (by rw [hb]) hh
    · have ht := ih false
      simp only [collapseGo, if_neg ha]
      cases hX : collapseGo false rest with
      | nil => simp [noDoubleUnderscore]
      | cons b t =>
        rw [hX] at ht
        simp [noDoubleUnderscore, ht, ha]

/-- Dropping the head of a no-double-underscore list keeps the property. -/
theorem noDouble_tail {a : Char} {xs : List Char}
    (h : noDoubleUnderscore (a :: xs) = true) : noDoubleUnderscore xs = true := by
  cases xs with
  | nil => simp [noDoubleUnderscore]
  | cons b t =>
    simp only [noDoubleUnderscore, Bool.and_eq_true] at h
    exact h.2

/-- In a no-double-underscore list starting with an underscore, the second
element is not an underscore. -/
theorem noDouble_head {xs : List Char}
    (h : noDoubleUnderscore ('_' :: xs) = true) : xs.head? ≠ some '_' := by
  cases xs with
  | nil => simp
  | cons b t =>
    simp only [noDoubleUnderscore, Bool.and_eq_true, Bool.or_eq_true] at h
    rcases h.1 with h1 | h1 <;> simp_all

/-- Dropping the last element preserves a non-underscore head. -/
theorem head_dropLast_ne {xs : List Char} (h : xs.head? ≠ some '_') :
    xs.dropLast.head? ≠ some '_' := by
  cases xs with
  | nil => simp
  | cons a t =>
    cases t with
    | nil => simp
    | cons b t2 => simpa [List.dropLast] using h

/-- Dropping the last element preserves the no-double-underscore property. -/
theorem noDouble_dropLast {xs : List Char} (h : noDoubleUnderscore xs = true) :
    noDoubleUnderscore xs.dropLast = true := by
  induction xs with
  | nil => simp [noDoubleUnderscore]
  | cons a t ih =>
    cases t with
    | nil => simp [List.dropLast, noDoubleUnderscore]
    | cons b t2 =>
      cases t2 with
      | nil => simp [List.dropLast, noDoubleUnderscore]
      | cons c t3 =>
        have h2 := noDouble_tail h
        have ihh := ih h2
        simp only [noDoubleUnderscore, Bool.and_eq_true] at h
        simp only [List.dropLast] at ihh ⊢
        simp only [noDoubleUnderscore, Bool.and_eq_true]
        exact ⟨h.1, ihh⟩

/-- In a no-double-underscore list ending in an underscore, dropping that
underscore leaves a list not ending in an underscore. -/
theorem getLast_dropLast_ne {xs : List Char}
    (hnd : noDoubleUnderscore xs = true) (hl : xs.getLast? = some '_') :
    xs.dropLast.getLast? ≠ some '_' := by
  induction xs with
  | nil => simp
  | cons a t ih =>
    cases t with
    | nil => simp [List.dropLast]
    | cons b t2 =>
      have hnd2 : noDoubleUnderscore (b :: t2) = true := noDouble_tail hnd
      have hl2 : (b :: t2).getLast? = some '_' := by
        simpa [List.getLast?_cons_cons] using hl
      cases t2 with
      | nil =>
        simp only [List.getLast?] at hl2
        simp only [noDoubleUnderscore, Bool.and_eq_true, Bool.or_eq_true] at hnd
        simp only [List.dropLast, List.getLast?]
        rcases hnd.1 with h1 | h1
        · simp_all
        · simp_all
      | cons c t3 =>
        have ihh := ih hnd2 hl2
        have hstep : (a :: b :: c :: t3).dropLast = a :: (b :: c :: t3).dropLast := rfl
        rw [hstep]
        cases hdl : (b :: c :: t3).dropLast with
        | nil => simp [List.dropLast] at hdl
        | cons d t4 =>
          rw [hdl] at ihh
          simpa [List.getLast?_cons_cons] using ihh

/-- Step-1 output contains only characters from the allowed class. -/
theorem replaceDisallowed_allowed (l : List Char) (c : Char)
    (h : c ∈ replaceDisallowed l) : allowedChar c = true := by
  simp only [replaceDisallowed, List.mem_map] at h
  rcases h with ⟨a, _, rfl⟩
  split_ifs with h2
  · exact h2
  · decide

/-- Shape of the step-3 output, given a no-double-underscore input. -/
theorem stripEdge_shape {L : List Char} (hnd : noDoubleUnderscore L = true) :
    noDoubleUnderscore (stripEdgeUnderscores L) = true ∧
    (stripEdgeUnderscores L).head? ≠ some '_' ∧
    (stripEdgeUnderscores L).getLast? ≠ some '_' ∧
    (∀ c ∈ stripEdgeUnderscores L, c ∈ L) := by
  have h1nd : noDoubleUnderscore (stripLeadUnderscore L) = true := by
    cases L with
    | nil => simp [stripLeadUnderscore, noDoubleUnderscore]
    | cons a rest =>
      by_cases ha : a = '_'
      · simpa [stripLeadUnderscore, ha] using noDouble_tail hnd
      · simpa [stripLeadUnderscore, ha] using hnd
  have h1head : (stripLeadUnderscore L).head? ≠ some '_' := by
    cases L with
    | nil => simp [stripLeadUnderscore]
    | cons a rest =>
      by_cases ha : a = '_'
      · subst ha
        simpa [stripLeadUnderscore] using noDouble_head hnd
      · simp [stripLeadUnderscore, ha]
  have h1mem : ∀ c ∈ stripLeadUnderscore L, c ∈ L := by
    cases L with
    | nil => simp [stripLeadUnderscore]
    | cons a rest =>
      by_cases ha : a = '_'
      · intro c hc
        simp only [stripLeadUnderscore, ha, if_pos] at hc
        exact List.mem_cons_of_mem _ hc
      · intro c hc
        simpa [stripLeadUnderscore, ha] using hc
  simp only [stripEdgeUnderscores]
  by_cases hlast : (stripLeadUnderscore L).getLast? = some '_'
  · rw [if_pos hlast]
    refine ⟨noDouble_dropLast h1nd, head_dropLast_ne h1head,
      getLast_dropLast_ne h1nd hlast, ?_⟩
    intro c hc
    exact h1mem c ((List.dropLast_sublist _).subset hc)
  · rw [if_neg hlast]
    exact ⟨h1nd, h1head, hlast, h1mem⟩

/-- C9 amended: `sanitizeUsername` deterministically returns an identifier
over alphanumerics, underscore and hyphen; runs of underscores are
collapsed and a leading or trailing underscore is removed, so the result
never begins or ends with an underscore and never contains two adjacent
underscores.  (Hyphens, by contrast, are preserved verbatim: they are
neither collapsed nor stripped at the edges — see the counterexample.) -/
theorem sanitizeUsername_shape (username : String) :
    ((sanitizeUsername username).data.all allowedChar = true) ∧
    noDoubleUnderscore (sanitizeUsername username).data = true ∧
    (sanitizeUsername username).data.head? ≠ some '_' ∧
    (sanitizeUsername username).data.getLast? ≠ some '_' := by
  have hnd : noDoubleUnderscore (collapseUnderscores (replaceDisallowed username.data)) = true :=
    noDouble_collapseGo false _
  have h := stripEdge_shape hnd
  refine ⟨?_, h.1, h.2.1, h.2.2.1⟩
  rw [List.all_eq_true]
  intro c hc
  have hc2 := h.2.2.2 c hc
  have hc3 := mem_collapseGo false _ c hc2
  exact replaceDisallowed_allowed _ c hc3

/-- C9 counterexample: hyphens are separators in the claim's sense, yet
`sanitizeUsername` keeps a leading hyphen, a trailing hyphen, and a
repeated hyphen run unchanged. -/
theorem sanitizeUsername_hyphen_edges :
    sanitizeUsername "-bob--" = "-bob--" ∧
    (sanitizeUsername "-bob--").data.head? = some '-' ∧
    (sanitizeUsername "-bob--").data.getLast? = some '-' := by
  refine ⟨by decide, by decide, by decide⟩

/-! ### Counting lemmas for event lists -/

@[simp] theorem countEmit_append (a b : List Ev) :
    countEmit (a ++ b) = countEmit a + countEmit b := by
  simp [countEmit, List.filter_append]

@[simp] theorem countRecord_append (a b : List Ev) :
    countRecord (a ++ b) = countRecord a + countRecord b := by
  simp [countRecord, List.filter_append]

@[simp] theorem countPrep_append (a b : List Ev) :
    countPrep (a ++ b) = countPrep a + countPrep b := by
  simp [countPrep, List.filter_append]

@[simp] theorem countLlm_append (a b : List Ev) :
    countLlm (a ++ b) = countLlm a + countLlm b := by
  simp [countLlm, List.filter_append]

@[simp] theorem countPsych_append (a b : List Ev) :
    countPsych (a ++ b) = countPsych a + countPsych b := by
  simp [countPsych, List.filter_append]

@[simp] theorem countSearchEv_append (a b : List Ev) :
    countSearchEv (a ++ b) = countSearchEv a + countSearchEv b := by
  simp [countSearchEv, List.filter_append]

@[simp] theorem countGenerate_append (a b : List Ev) :
    countGenerate (a ++ b) = countGenerate a + countGenerate b := by
  simp [countGenerate, List.filter_append]


@[simp] theorem countEmit_nil : countEmit [] = 0 := rfl

@[simp] theorem countRecord_nil : countRecord [] = 0 := rfl

@[simp] theorem countPrep_nil : countPrep [] = 0 := rfl

@[simp] theorem countLlm_nil : countLlm [] = 0 := rfl

@[simp] theorem countPsych_nil : countPsych [] = 0 := rfl

@[simp] theorem countSearchEv_nil : countSearchEv [] = 0 := rfl

@[simp] theorem countGenerate_nil : countGenerate [] = 0 := rfl

@[simp] theorem countEmit_cons (e : Ev) (l : List Ev) :
    countEmit (e :: l) = (match e with | Ev.emitChat _ => 1 | _ => 0) + countEmit l := by
  cases e <;> simp [countEmit, List.filter] <;> omega

@[simp] theorem countRecord_cons (e : Ev) (l : List Ev) :
    countRecord (e :: l) = (match e with | Ev.recordUtter _ => 1 | _ => 0) + countRecord l := by
  cases e <;> simp [countRecord, List.filter] <;> omega

@[simp] theorem countPrep_cons (e : Ev) (l : List Ev) :
    countPrep (e :: l) = (match e with | Ev.prepCtx => 1 | _ => 0) + countPrep l := by
  cases e <;> simp [countPrep, List.filter] <;> omega

@[simp] theorem countLlm_cons (e : Ev) (l : List Ev) :
    countLlm (e :: l) = (match e with | Ev.llmCall => 1 | _ => 0) + countLlm l := by
  cases e <;> simp [countLlm, List.filter] <;> omega

@[simp] theorem countPsych_cons (e : Ev) (l : List Ev) :
    countPsych (e :: l) = (match e with | Ev.psychCall => 1 | _ => 0) + countPsych l := by
  cases e <;> simp [countPsych, List.filter] <;> omega

@[simp] theorem countSearchEv_cons (e : Ev) (l : List Ev) :
    countSearchEv (e :: l) = (match e with | Ev.searchCall => 1 | _ => 0) + countSearchEv l := by
  cases e <;> simp [countSearchEv, List.filter] <;> omega

@[simp] theorem countGenerate_cons (e : Ev) (l : List Ev) :
    countGenerate (e :: l) = (match e with | Ev.generateCall => 1 | _ => 0) + countGenerate l := by
  cases e <;> simp [countGenerate, List.filter] <;> omega

/-- Combined accounting for the bounded tool loop: whether a run returns
normally or crashes, the loop body never invokes the generate
continuation, performs at most `fuel` further backend calls, and executes
each tool only if its tracker slot is still unset. -/
theorem planResponseLoopGo_counts (d : Nat → Option JsDecisionField) (p : Option String)
    (s : JsSearch) (fuel idx : Nat) (tr : Tracker3) (evs : List Ev) :
    countGenerate (planEvents (planResponseLoopGo d p s fuel idx tr evs)) = countGenerate evs ∧
    countLlm (planEvents (planResponseLoopGo d p s fuel idx tr evs)) ≤ countLlm evs + fuel ∧
    countPsych (planEvents (planResponseLoopGo d p s fuel idx tr evs)) ≤
      countPsych evs + (if tr.psychology = none then 1 else 0) ∧
    countSearchEv (planEvents (planResponseLoopGo d p s fuel idx tr evs)) ≤
      countSearchEv evs + (if tr.search = none then 1 else 0) := by
  induction fuel generalizing idx tr evs with
  | zero =>
    exact ⟨rfl, Nat.le_add_right _ _, Nat.le_add_right _ _, Nat.le_add_right _ _⟩
  | succ n ih =>
    simp only [planResponseLoopGo]
    cases hd : d idx with
    | none => simp [planEvents] <;> omega
    | some f =>
      cases f with
      | nullish => simp [planEvents] <;> omega
      | truthyNonString => simp [planEvents] <;> omega
      | str s0 =>
        cases hnd : normalizeDecision (some s0) with
        | unknown =>
          simp only [hnd]
          simp [planEvents] <;> omega
        | respond =>
          simp only [hnd]
          simp [planEvents] <;> omega
        | psychology =>
          simp only [hnd]
          by_cases hps : tr.psychology = none
          · rw [if_pos hps]
            by_cases htr : truthyStr p = true
            · rw [if_pos htr]
              have h := ih (idx + 1) ⟨some p, tr.search⟩ ((evs ++ [Ev.llmCall]) ++ [Ev.psychCall])
              rcases h with ⟨h1, h2, h3, h4⟩
              simp [hps] at h1 h2 h3 h4 ⊢
              omega
            · rw [if_neg htr]
              simp [hps, planEvents] <;> omega
          · rw [if_neg hps]
            simp [hps, planEvents] <;> omega
        | search =>
          simp only [hnd]
          by_cases hse : tr.search = none
          · rw [if_pos hse]
            by_cases hms : searchMessages s ≠ []
            · rw [if_pos hms]
              have h := ih (idx + 1) ⟨tr.psychology, some (if searchMessages s ≠ [] then some (searchMessages s) else none)⟩
                ((evs ++ [Ev.llmCall]) ++ [Ev.searchCall])
              rcases h with ⟨h1, h2, h3, h4⟩
              simp [hse, hms] at h1 h2 h3 h4 ⊢
              omega
            · rw [if_neg hms]
              simp [hse, planEvents] <;> omega
          · rw [if_neg hse]
            simp [hse, planEvents] <;> omega

/-- When no backend round carries a truthy non-string decision field, the
bounded loop never raises and falls through to the generate call site. -/
theorem planResponseLoopGo_ok (d : Nat → Option JsDecisionField) (p : Option String)
    (s : JsSearch) (h : ∀ i, d i ≠ some JsDecisionField.truthyNonString) :
    ∀ fuel idx tr evs, planOk (planResponseLoopGo d p s fuel idx tr evs) = true := by
  intro fuel
  induction fuel with
  | zero => intro idx tr evs; rfl
  | succ n ih =>
    intro idx tr evs
    simp only [planResponseLoopGo]
    cases hd : d idx with
    | none => rfl
    | some f =>
      cases f with
      | nullish => rfl
      | truthyNonString => exact absurd hd (h idx)
      | str s0 =>
        cases hnd : normalizeDecision (some s0) with
        | unknown =>
          simp only [hnd]
          rfl
        | respond =>
          simp only [hnd]
          rfl
        | psychology =>
          simp only [hnd]
          by_cases hps : tr.psychology = none
          · rw [if_pos hps]
            by_cases htr : truthyStr p = true
            · rw [if_pos htr]; exact ih _ _ _
            · rw [if_neg htr]
              rfl
          · rw [if_neg hps]
            rfl
        | search =>
          simp only [hnd]
          by_cases hse : tr.search = none
          · rw [if_pos hse]
            by_cases hms : searchMessages s ≠ []
            · rw [if_pos hms]; exact ih _ _ _
            · rw [if_neg hms]
              rfl
          · rw [if_neg hse]
            rfl

/-- C1 counterexample: on a parseable but schema-violating backend output
whose decision field is a truthy non-string — for example the JSON object
with decision 5 — the loop version raises an uncaught TypeError inside
`normalizeDecision` during its first round and never invokes the
`generateResponse` continuation: the run rejects after one backend call,
with zero generate invocations. -/
theorem planResponseLoop_crash_never_generates :
    planResponseLoop (fun _ => some JsDecisionField.truthyNonString) none
        JsSearch.nullish ⟨none, none⟩ = .error [Ev.llmCall] ∧
    countGenerate (planEvents (planResponseLoop
        (fun _ => some JsDecisionField.truthyNonString) none
        JsSearch.nullish ⟨none, none⟩)) = 0 := by
  constructor <;> rfl

/-- C1 amended: when every parseable tool-choice output carries a string or
falsy decision field — what the `actionDecisionSchema` response format asks
of the backend — the loop version returns normally and invokes the
`generateResponse` continuation exactly once, within the fixed cap of 3
decision rounds, for any sequence of such outputs including adversarial
repeats, parse failures and unrecognized labels; on a truthy non-string
decision field it instead propagates an uncaught exception without
invoking the continuation (see the counterexample).  The current
single-round version, whose try/catch and typeof guard swallow every such
failure, invokes the continuation exactly once unconditionally, within the
same cap. -/
theorem planResponse_generate_once_schema_conformant
    (d : Nat → Option JsDecisionField) (p : Option String) (s : JsSearch)
    (env : PlanLLM) (psychT searchT : ToolOutcome)
    (h : ∀ i, d i ≠ some JsDecisionField.truthyNonString) :
    (planOk (planResponseLoop d p s ⟨none, none⟩) = true ∧
      countGenerate (planEvents (planResponseLoop d p s ⟨none, none⟩)) = 1 ∧
      countLlm (planEvents (planResponseLoop d p s ⟨none, none⟩)) ≤ 3) ∧
    (countGenerate (planResponseHead env psychT searchT).2 = 1 ∧
      countLlm (planResponseHead env psychT searchT).2 ≤ 3) := by
  constructor
  · have hok := planResponseLoopGo_ok d p s h 3 0 ⟨none, none⟩ []
    have hc := planResponseLoopGo_counts d p s 3 0 ⟨none, none⟩ []
    rcases hc with ⟨h1, h2, _, _⟩
    cases hgo : planResponseLoopGo d p s 3 0 ⟨none, none⟩ [] with
    | error evs =>
      rw [hgo] at hok
      simp [planOk] at hok
    | ok r =>
      obtain ⟨tr, evs⟩ := r
      rw [hgo] at h1 h2
      simp only [planEvents, countGenerate_nil, countLlm_nil, Nat.zero_add] at h1 h2
      refine ⟨?_, ?_, ?_⟩
      · simp [planResponseLoop, hgo, planOk]
      · simp [planResponseLoop, hgo, planEvents, h1]
      · simp only [planResponseLoop, hgo, planEvents, countLlm_append, countLlm_cons,
          countLlm_nil]
        omega
  · cases env with
    | threw => simp [planResponseHead]
    | ok pd =>
      simp only [planResponseHead]
      cases hnd : normalizeDecision (some (decisionLabelOf pd)) with
      | psychology =>
        simp only [hnd]
        cases psychT <;> simp
      | search =>
        simp only [hnd]
        cases searchT <;> simp
      | respond => simp only [hnd]; simp
      | unknown => simp only [hnd]; simp

/-- Witness for C1 amended at a backend that keeps answering the string
label respond. -/
theorem planResponse_generate_once_schema_conformant_witness :
    planOk (planResponseLoop (fun _ => some (JsDecisionField.str "respond")) none
        JsSearch.nullish ⟨none, none⟩) = true ∧
    countGenerate (planEvents (planResponseLoop
        (fun _ => some (JsDecisionField.str "respond")) none
        JsSearch.nullish ⟨none, none⟩)) = 1 := by
  have h := planResponse_generate_once_schema_conformant
    (fun _ => some (JsDecisionField.str "respond")) none JsSearch.nullish
    PlanLLM.threw ToolOutcome.threw ToolOutcome.threw (fun i => by simp)
  exact ⟨h.1.1, h.1.2.1⟩

/-- C7: within one invocation of the bounded-loop `planResponse`, each tool
is executed at most once even if the backend repeatedly chooses the same
tool — crash runs included, since a crash only truncates the loop — and a
tool whose result is already present in the tracker is never executed for
that inbound message (the bound is 0 when the slot is already set, 1
otherwise).  The current single-round version satisfies the same bounds. -/
theorem planResponse_single_use_tools (d : Nat → Option JsDecisionField)
    (p : Option String) (s : JsSearch) (tr0 : Tracker3)
    (env : PlanLLM) (psychT searchT : ToolOutcome) :
    (countPsych (planEvents (planResponseLoop d p s tr0)) ≤
        (if tr0.psychology = none then 1 else 0) ∧
      countSearchEv (planEvents (planResponseLoop d p s tr0)) ≤
        (if tr0.search = none then 1 else 0)) ∧
    (countPsych (planResponseHead env psychT searchT).2 ≤ 1 ∧
      countSearchEv (planResponseHead env psychT searchT).2 ≤ 1) := by
  constructor
  · have hc := planResponseLoopGo_counts d p s 3 0 tr0 []
    rcases hc with ⟨_, _, h3, h4⟩
    simp only [countPsych_nil, countSearchEv_nil, Nat.zero_add] at h3 h4
    cases hgo : planResponseLoopGo d p s 3 0 tr0 [] with
    | error evs =>
      rw [hgo] at h3 h4
      simp only [planEvents] at h3 h4
      constructor
      · simpa [planResponseLoop, hgo, planEvents] using h3
      · simpa [planResponseLoop, hgo, planEvents] using h4
    | ok r =>
      obtain ⟨tr, evs⟩ := r
      rw [hgo] at h3 h4
      simp only [planEvents] at h3 h4
      constructor
      · simp only [planResponseLoop, hgo, planEvents, countPsych_append, countPsych_cons,
          countPsych_nil]
        omega
      · simp only [planResponseLoop, hgo, planEvents, countSearchEv_append,
          countSearchEv_cons, countSearchEv_nil]
        omega
  · cases env with
    | threw => simp [planResponseHead]
    | ok pd =>
      simp only [planResponseHead]
      cases hnd : normalizeDecision (some (decisionLabelOf pd)) with
      | psychology =>
        simp only [hnd]
        cases psychT <;> simp
      | search =>
        simp only [hnd]
        cases searchT <;> simp
      | respond => simp only [hnd]; simp
      | unknown => simp only [hnd]; simp

/-- `generateResponse` never touches the session id or the dedup cache. -/
theorem generateResponse_state (st : AgentState) (g : GenLLM) (r : Bool) (n : Int) :
    (generateResponse st g r n).1.sessionId = st.sessionId ∧
    (generateResponse st g r n).1.processedMessages = st.processedMessages := by
  cases g with
  | threw => exact ⟨rfl, rfl⟩
  | content c =>
    cases c with
    | none => exact ⟨rfl, rfl⟩
    | some raw =>
      simp only [generateResponse]
      split_ifs <;> exact ⟨rfl, rfl⟩

/-- A `processMessage` run with a falsy session id is a no-op. -/
theorem processMessage_no_session (st : AgentState) (env : PipelineEnv) (msg : Msg)
    (hS : sessionTruthy st.sessionId = false) :
    processMessage st env msg = (st, []) := by
  simp [processMessage, hS]

/-- A `processMessage` run whose dedup key is already cached is a no-op. -/
theorem processMessage_dedup_hit (st : AgentState) (env : PipelineEnv) (msg : Msg)
    (hS : sessionTruthy st.sessionId = true)
    (hmem : st.processedMessages.contains (messageKey msg) = true) :
    processMessage st env msg = (st, []) := by
  have hmem2 : messageKey msg ∈ st.processedMessages := by simpa using hmem
  simp [processMessage, hS, hmem2]

/-- `processMessage` preserves the session id, and either leaves the dedup
cache unchanged (in the no-session and dedup-hit cases) or prepends exactly
the message key. -/
theorem processMessage_state (st : AgentState) (env : PipelineEnv) (msg : Msg) :
    (processMessage st env msg).1.sessionId = st.sessionId ∧
    ((processMessage st env msg).1.processedMessages = st.processedMessages ∨
      (processMessage st env msg).1.processedMessages =
        messageKey msg :: st.processedMessages) := by
  cases hb : sessionTruthy st.sessionId with
  | false => rw [processMessage_no_session st env msg hb]; exact ⟨rfl, Or.inl rfl⟩
  | true =>
    cases hmem : st.processedMessages.contains (messageKey msg) with
    | true => rw [processMessage_dedup_hit st env msg hb hmem]; exact ⟨rfl, Or.inl rfl⟩
    | false =>
      simp only [processMessage, hb, hmem]
      norm_num
      split_ifs <;>
        first
        | exact ⟨rfl, Or.inr rfl⟩
        | exact ⟨(generateResponse_state _ _ _ _).1,
            Or.inr (generateResponse_state _ _ _ _).2⟩

/-- A `processMessage` run that passes the session and dedup guards caches
exactly the message key. -/
theorem processMessage_records_key (st : AgentState) (env : PipelineEnv) (msg : Msg)
    (hS : sessionTruthy st.sessionId = true)
    (hmem : st.processedMessages.contains (messageKey msg) = false) :
    (processMessage st env msg).1.processedMessages =
      messageKey msg :: st.processedMessages := by
  simp only [processMessage, hS, hmem]
  norm_num
  split_ifs <;>
    first
    | rfl
    | exact (generateResponse_state _ _ _ _).2

/-- C2: delivering the same inbound chat message (identical sender, content
and timestamp) twice to one agent leaves the second delivery discarded by
the dedup check before any context preparation or recording: the second
`processMessage` run produces no events at all — no context preparation,
no reply, no record — and leaves the agent state unchanged. -/
theorem duplicate_intake_discarded (st : AgentState) (env1 env2 : PipelineEnv)
    (msg1 msg2 : Msg) (hu : msg2.username = msg1.username)
    (hc : msg2.content = msg1.content) (ht : msg2.timestamp = msg1.timestamp) :
    processMessage (processMessage st env1 msg1).1 env2 msg2 =
      ((processMessage st env1 msg1).1, []) := by
  have hkey : messageKey msg2 = messageKey msg1 := by
    simp [messageKey, hu, hc, ht]
  cases hb : sessionTruthy st.sessionId with
  | false =>
    rw [processMessage_no_session st env1 msg1 hb]
    exact processMessage_no_session st env2 msg2 hb
  | true =>
    have hsess := (processMessage_state st env1 msg1).1
    have hb1 : sessionTruthy (processMessage st env1 msg1).1.sessionId = true := by
      rw [hsess]; exact hb
    cases hmem : st.processedMessages.contains (messageKey msg1) with
    | true =>
      rw [processMessage_dedup_hit st env1 msg1 hb hmem]
      exact processMessage_dedup_hit st env2 msg2 hb (hkey ▸ hmem)
    | false =>
      have h1 := processMessage_records_key st env1 msg1 hb hmem
      refine processMessage_dedup_hit _ env2 msg2 hb1 ?_
      rw [h1, hkey]
      simp

/-- Witness for C2: a concrete duplicate delivery of one chat message. -/
theorem duplicate_intake_discarded_witness :
    processMessage
        (processMessage ⟨"Stack", "Stack", some "s1", [], none⟩
          ⟨1000, true, .threw, .threw, .threw, .threw, .threw, true⟩
          ⟨"chat", "alice", "hi Stack", "t1", some "human"⟩).1
        ⟨2000, true, .threw, .threw, .threw, .threw, .threw, true⟩
        ⟨"chat", "alice", "hi Stack", "t1", some "human"⟩ =
      ((processMessage ⟨"Stack", "Stack", some "s1", [], none⟩
          ⟨1000, true, .threw, .threw, .threw, .threw, .threw, true⟩
          ⟨"chat", "alice", "hi Stack", "t1", some "human"⟩).1, []) :=
  duplicate_intake_discarded _ _ _ _ _ rfl rfl rfl

/-- Replacing only the dedup cache leaves the address check unchanged. -/
@[simp] theorem isMessageAddressed_update (st : AgentState) (pm : List String) (c : String) :
    isMessageAddressed
      { agentName := st.agentName, agentPeerId := st.agentPeerId, sessionId := st.sessionId,
        processedMessages := pm, lastResponseTimestamp := st.lastResponseTimestamp } c =
    isMessageAddressed st c := rfl

/-- C4: when the sender of an inbound chat message is itself an agent, the
recipient emits no reply unless the content mentions the recipient's name
or peer id, and emits no reply when fewer than 20 seconds (the cooldown)
have elapsed since the recipient's own last reply.  The positivity
hypothesis on the stored timestamp reflects that `Date.now()` values are
positive. -/
theorem agent_crosstalk_throttling (st : AgentState) (env : PipelineEnv) (msg : Msg)
    (hAgent : msg.userType = some "agent") :
    (isMessageAddressed st msg.content = false →
      countEmit (processMessage st env msg).2 = 0) ∧
    (∀ t : Int, st.lastResponseTimestamp = some t → 0 < t →
      env.now - t < 20000 → countEmit (processMessage st env msg).2 = 0) := by
  constructor
  · intro hAddr
    cases hb : sessionTruthy st.sessionId with
    | false => rw [processMessage_no_session st env msg hb]; rfl
    | true =>
      cases hmem : st.processedMessages.contains (messageKey msg) with
      | true => rw [processMessage_dedup_hit st env msg hb hmem]; rfl
      | false =>
        have hmem2 : messageKey msg ∉ st.processedMessages := by simpa using hmem
        simp [processMessage, hb, hmem2, hAgent, hAddr, countEmit]
  · intro t ht h0 hlt
    cases hb : sessionTruthy st.sessionId with
    | false => rw [processMessage_no_session st env msg hb]; rfl
    | true =>
      cases hmem : st.processedMessages.contains (messageKey msg) with
      | true => rw [processMessage_dedup_hit st env msg hb hmem]; rfl
      | false =>
        have hmem2 : messageKey msg ∉ st.processedMessages := by simpa using hmem
        have h1 : ¬t = 0 := by omega
        cases hAddr : isMessageAddressed st msg.content with
        | false => simp [processMessage, hb, hmem2, hAgent, hAddr, countEmit]
        | true =>
          simp [processMessage, hb, hmem2, hAgent, hAddr, ht, cooldownActive, h1, hlt, countEmit]

/-- Witness for C4: an unaddressed agent message to `Merge`, and an
addressed agent message to `Grimjaw` arriving 1 second after its last
reply.  Neither produces an emission. -/
theorem agent_crosstalk_throttling_witness :
    countEmit (processMessage ⟨"Merge", "Merge", some "s1", [], some 1000⟩
      ⟨2000, true, .threw, .threw, .threw, .threw, .threw, true⟩
      ⟨"chat", "Lint", "hello world", "t1", some "agent"⟩).2 = 0 ∧
    countEmit (processMessage ⟨"Grimjaw", "Grimjaw", some "s1", [], some 1000⟩
      ⟨2000, true, .threw, .threw, .threw, .threw, .threw, true⟩
      ⟨"chat", "Lint", "Grimjaw, your move", "t2", some "agent"⟩).2 = 0 := by
  constructor
  · exact (agent_crosstalk_throttling _ _ _ rfl).1 (by decide)
  · exact (agent_crosstalk_throttling _ _ _ rfl).2 1000 rfl (by decide) (by decide)

/-- C6: if the generation backend returns empty or whitespace-only text for
the final response, `generateResponse` emits no message on the shared
channel and records no utterance — the run produces no events and leaves
the state unchanged. -/
theorem empty_reply_suppression (st : AgentState) (recordOk : Bool) (now : Int)
    (raw : String) (h : jsTrim raw = "") :
    generateResponse st (.content (some raw)) recordOk now = (st, []) := by
  simp [generateResponse, h]

/-- Witness for C6 at a whitespace-only generated text. -/
theorem empty_reply_suppression_witness :
    jsTrim "  \n " = "" ∧
    generateResponse ⟨"Stack", "Stack", some "s1", [], none⟩
        (.content (some "  \n ")) true 5 =
      (⟨"Stack", "Stack", some "s1", [], none⟩, []) := by
  refine ⟨by decide, empty_reply_suppression _ true 5 "  \n " (by decide)⟩

/-- Once the introduction was sent, the game-master handler never emits
another one. -/
theorem gmIntroRun_sent (msgs : List Msg) : (gmIntroRun true msgs).2 = 0 := by
  induction msgs with
  | nil => rfl
  | cons m rest ih => simpa [gmIntroRun, gmIntroStep] using ih

/-- C10: a message whose kind is not `chat`, or whose sender is the agent
itself, never reaches the decision pipeline and yields no reply; the sole
exception is the narrator's scene introduction, which fires at most once
over any message sequence and only for a `join` message from a human. -/
theorem nonchat_and_own_ignored (st : AgentState) (env : PipelineEnv) (msg : Msg)
    (h : msg.type ≠ "chat" ∨ msg.username = st.agentName) :
    dispatchChat st env msg = (st, []) ∧
    (∀ introSent : Bool, ∀ msgs : List Msg, (gmIntroRun introSent msgs).2 ≤ 1) ∧
    (∀ introSent : Bool, ∀ m : Msg, (gmIntroStep introSent m).2 = true →
      m.type = "join" ∧ m.userType = some "human" ∧ introSent = false) := by
  refine ⟨?_, ?_, ?_⟩
  · unfold dispatchChat
    rcases h with h | h
    · rw [if_neg]
      intro hcon
      exact h hcon.1
    · rw [if_neg]
      intro hcon
      exact hcon.2 h
  · intro introSent msgs
    induction msgs generalizing introSent with
    | nil => simp [gmIntroRun]
    | cons m rest ih =>
      cases introSent with
      | true => simp [gmIntroRun, gmIntroStep, gmIntroRun_sent]
      | false =>
        by_cases hc : m.type = "join" ∧ m.userType = some "human"
        · simp [gmIntroRun, gmIntroStep, hc, gmIntroRun_sent]
        · simp [gmIntroRun, gmIntroStep, hc]
          exact ih false
  · intro introSent m hm
    unfold gmIntroStep at hm
    split_ifs at hm with hcond
    exact ⟨hcond.2.1, hcond.2.2, hcond.1⟩

/-- Witness for C10: a human `join` message is ignored by the base chat
dispatch, and a sequence of two human joins still yields exactly at most
one introduction. -/
theorem nonchat_and_own_ignored_witness :
    dispatchChat ⟨"Stack", "Stack", some "s1", [], none⟩
        ⟨0, true, .threw, .threw, .threw, .threw, .threw, true⟩
        ⟨"join", "alice", "", "t0", some "human"⟩ =
      (⟨"Stack", "Stack", some "s1", [], none⟩, []) ∧
    (gmIntroRun false [⟨"join", "alice", "", "t0", some "human"⟩,
      ⟨"join", "bob", "", "t1", some "human"⟩]).2 ≤ 1 := by
  have h := nonchat_and_own_ignored ⟨"Stack", "Stack", some "s1", [], none⟩
    ⟨0, true, .threw, .threw, .threw, .threw, .threw, true⟩
    ⟨"join", "alice", "", "t0", some "human"⟩ (Or.inl (by decide))
  exact ⟨h.1, h.2.1 false _⟩

/-- C3 counterexample: a successful call of the current `prepareContext`
performs zero durable writes — the incoming message is not recorded by this
call — contradicting the claimed exactly-one durable write per call. -/
theorem prepareContext_zero_writes :
    exceptOk (prepareContextHead "Stack"
      ⟨true, true, some ⟨[], none, none, none⟩, [], true⟩).1 = true ∧
    (prepareContextHead "Stack"
      ⟨true, true, some ⟨[], none, none, none⟩, [], true⟩).2 = [] := by
  constructor <;> rfl

/-- C3 amended: the current `prepareContext` performs no durable write on
any path, and any failed store call fails the whole call, in which case the
caller emits and records nothing; in the earlier recording variant the
claim held — a successful call performs exactly one durable write (the
incoming utterance under the sanitized sender id) before returning, and a
failed write fails the call with nothing written. -/
theorem prepareContext_write_discipline (agentName : String) (env : StoreEnv)
    (senderUsername content : String) (st : AgentState) (penv : PipelineEnv) (msg : Msg) :
    (prepareContextHead agentName env).2 = [] ∧
    (env.sessionOk = false ∨ env.peerOk = false ∨ env.context = none →
      exceptOk (prepareContextHead agentName env).1 = false) ∧
    (exceptOk (prepareContextRecording env senderUsername content).1 = true →
      (prepareContextRecording env senderUsername content).2 =
        [⟨sanitizeUsername senderUsername, content⟩]) ∧
    (env.addOk = false →
      exceptOk (prepareContextRecording env senderUsername content).1 = false ∧
      (prepareContextRecording env senderUsername content).2 = []) ∧
    (penv.prepareOk = false →
      countEmit (processMessage st penv msg).2 = 0 ∧
      countRecord (processMessage st penv msg).2 = 0) := by
  obtain ⟨so, po, ctx, lines, ao⟩ := env
  refine ⟨?_, ?_, ?_, ?_, ?_⟩
  · cases so <;> cases po <;> (try cases ctx) <;> rfl
  · intro h
    cases so with
    | false => rfl
    | true =>
      cases po with
      | false => rfl
      | true =>
        cases ctx with
        | none => rfl
        | some c => rcases h with h | h | h <;> simp at h
  · intro hok
    cases so with
    | false => simp [prepareContextRecording, exceptOk] at hok
    | true =>
      cases po with
      | false => simp [prepareContextRecording, exceptOk] at hok
      | true =>
        cases ctx with
        | none => simp [prepareContextRecording, exceptOk] at hok
        | some c =>
          cases ao with
          | false => simp [prepareContextRecording, exceptOk] at hok
          | true => rfl
  · intro ha
    subst ha
    cases so <;> cases po <;> (try cases ctx) <;> exact ⟨rfl, rfl⟩
  · intro hp
    cases hb : sessionTruthy st.sessionId with
    | false => rw [processMessage_no_session st penv msg hb]; exact ⟨rfl, rfl⟩
    | true =>
      cases hmem : st.processedMessages.contains (messageKey msg) with
      | true => rw [processMessage_dedup_hit st penv msg hb hmem]; exact ⟨rfl, rfl⟩
      | false =>
        have hmem2 : messageKey msg ∉ st.processedMessages := by simpa using hmem
        simp only [processMessage, hb, hmem2, hp]
        norm_num
        split_ifs <;> exact ⟨rfl, rfl⟩

/-- Witness for C3 amended: at an all-successful store, the current variant
returns successfully with zero writes, the recording variant writes exactly
the incoming utterance, and a caller whose context preparation failed emits
and records nothing. -/
theorem prepareContext_write_discipline_witness :
    (prepareContextHead "Stack"
      ⟨true, true, some ⟨[], none, none, none⟩, ["alice: hi"], true⟩).2 = [] ∧
    (prepareContextRecording ⟨true, true, some ⟨[], none, none, none⟩, ["alice: hi"], true⟩
        "alice" "hi").2 = [⟨sanitizeUsername "alice", "hi"⟩] ∧
    (countEmit (processMessage ⟨"Stack", "Stack", some "s1", [], none⟩
        ⟨0, false, .threw, .threw, .threw, .threw, .threw, true⟩
        ⟨"chat", "alice", "hi", "t0", some "human"⟩).2 = 0) := by
  have h := prepareContext_write_discipline "Stack"
    ⟨true, true, some ⟨[], none, none, none⟩, ["alice: hi"], true⟩ "alice" "hi"
    ⟨"Stack", "Stack", some "s1", [], none⟩
    ⟨0, false, .threw, .threw, .threw, .threw, .threw, true⟩
    ⟨"chat", "alice", "hi", "t0", some "human"⟩
  exact ⟨h.1, h.2.2.1 rfl, (h.2.2.2.2 rfl).1⟩

/-- C5 counterexample: under the current gate, a backend transport error
does not degrade to a should_respond = false decision — with a message
mentioning the agent name, the heuristic fallback fires and the gate
answers true. -/
theorem shouldRespond_transport_not_false :
    (shouldRespond "Stack" "Hello Stack" .threw).should_respond = true := by decide

/-- C5 amended: malformed or unparseable backend output never propagates an
exception and falls back to the heuristic strategy, and a backend transport
error likewise falls back to the heuristic strategy — which answers
should_respond = false unless the message mentions the agent's name. -/
theorem shouldRespond_soft_failure (agentName content : String) (p : RespondParsed) :
    shouldRespond agentName content .threw = heuristicFallback agentName content ∧
    shouldRespond agentName content (.output none) = heuristicFallback agentName content ∧
    (p.sr = none ∨ p.reason = none ∨ p.confidence = none →
      shouldRespond agentName content (.output (some p)) = heuristicFallback agentName content) ∧
    (jsIncludes (jsLower content) (jsLower agentName) = false →
      jsIncludes (jsLower content) ("@" ++ jsLower agentName) = false →
      (heuristicFallback agentName content).should_respond = false) := by
  obtain ⟨sr, r, c⟩ := p
  refine ⟨rfl, rfl, ?_, ?_⟩
  · intro h
    cases sr with
    | none => rfl
    | some b =>
      cases r with
      | none => rfl
      | some r0 =>
        cases c with
        | none => rfl
        | some c0 => rcases h with h | h | h <;> simp at h
  · intro h1 h2
    simp [heuristicFallback, h1, h2]

/-- Witness for C5 amended at a shape-invalid parse and an unaddressed
message. -/
theorem shouldRespond_soft_failure_witness :
    shouldRespond "Merge" "the weather is nice" (.output (some ⟨none, some "x", some 1⟩)) =
      heuristicFallback "Merge" "the weather is nice" ∧
    (heuristicFallback "Merge" "the weather is nice").should_respond = false := by
  have h := shouldRespond_soft_failure "Merge" "the weather is nice" ⟨none, some "x", some 1⟩
  exact ⟨h.2.2.1 (Or.inl rfl), h.2.2.2 (by decide) (by decide)⟩
